import Mathlib

/-!
Verification of the voice-activity-gated audio capture and transcription
engine of this repository.

The development shallowly embeds the audio pipeline of
`src/whisper/test_transcribe.py` (the `CircularBuffer` pre-roll ring, the
RMS voice-activity detector `detect_voice_activity`, and the VAD streaming
loop `stream_with_vad`) and the HTTP session layer of
`src/python/routes/audio_route.py` (`transcribe_audio`,
`record_audio_thread`'s per-chunk handling, `start_recording`,
`stop_recording`).

Modelling conventions:
- audio is modelled at int16-sample granularity (`Sample := Int`); one
  sample is two bytes, so a byte length in the source corresponds to twice
  a sample count here, and `BYTES_PER_SECOND = 32000` byte-seconds become
  `length / 16000` sample-seconds;
- durations (seconds) are exact rationals; the source uses Python floats,
  whose values on the configurations considered here (multiples of small
  decimal fractions) are modelled exactly;
- the registry of sessions is an insertion-ordered association list, the
  model of a Python dict.
-/

namespace App

abbrev Sample := Int

/-! ## CircularBuffer (src/whisper/test_transcribe.py, lines 18-40)

`max_samples = int(duration_seconds * sample_rate)`; the byte capacity is
`max_samples * bytes_per_sample = 2 * maxSamples`.  `add` extends the
buffer and, when the byte length exceeds the capacity, keeps only the
trailing `max_bytes` bytes via `buffer[-max_bytes:]`.  In Python, when
`max_bytes = 0` the slice `buffer[-0:]` is the whole buffer, so that
degenerate capacity keeps everything; the embedding reproduces this. -/

structure CircularBuffer where
  maxSamples : Nat
  buffer : List Sample
deriving DecidableEq

def CircularBuffer.add (cb : CircularBuffer) (chunk : List Sample) : CircularBuffer :=
  let b := cb.buffer ++ chunk
  if b.length > cb.maxSamples then
    if cb.maxSamples = 0 then { cb with buffer := b }
    else { cb with buffer := b.drop (b.length - cb.maxSamples) }
  else { cb with buffer := b }

def CircularBuffer.get_all (cb : CircularBuffer) : List Sample := cb.buffer

def CircularBuffer.clear (cb : CircularBuffer) : CircularBuffer := { cb with buffer := [] }

/-- The trailing `n` elements of a list (`l[-n:]` for `n > 0`). -/
def tailN (n : Nat) (l : List Sample) : List Sample := l.drop (l.length - n)

theorem tailN_length (n : Nat) (l : List Sample) : (tailN n l).length = l.length - (l.length - n) := by
  simp [tailN]

theorem tailN_length_le (n : Nat) (l : List Sample) : (tailN n l).length ≤ n := by
  rw [tailN_length]; omega

theorem tailN_suffix (n : Nat) (l : List Sample) : (tailN n l).IsSuffix l :=
  List.drop_suffix _ _

theorem tailN_of_length_le (n : Nat) (l : List Sample) (h : l.length ≤ n) : tailN n l = l := by
  simp [tailN, Nat.sub_eq_zero_of_le h]

theorem CircularBuffer.eq_of_fields {cb cb' : CircularBuffer}
    (h1 : cb.maxSamples = cb'.maxSamples) (h2 : cb.buffer = cb'.buffer) : cb = cb' := by
  cases cb; cases cb'
  simp only at h1 h2
  rw [h1, h2]

theorem CircularBuffer.add_def (m : Nat) (b c : List Sample) :
    CircularBuffer.add ⟨m, b⟩ c =
      if (b ++ c).length > m then
        if m = 0 then ⟨m, b ++ c⟩ else ⟨m, (b ++ c).drop ((b ++ c).length - m)⟩
      else ⟨m, b ++ c⟩ := rfl

/-- `add` on a positive-capacity buffer is exactly "append, then keep the
trailing `maxSamples` samples". -/
theorem CircularBuffer.add_eq_tailN (m : Nat) (b c : List Sample) (hm : 0 < m) :
    (CircularBuffer.add ⟨m, b⟩ c).buffer = tailN m (b ++ c) := by
  have hm' : m ≠ 0 := Nat.pos_iff_ne_zero.mp hm
  rw [CircularBuffer.add_def]
  by_cases h : (b ++ c).length > m
  · rw [if_pos h, if_neg hm']
    rfl
  · rw [if_neg h, tailN_of_length_le m (b ++ c) (not_lt.mp h)]

theorem CircularBuffer.add_maxSamples (cb : CircularBuffer) (c : List Sample) :
    (cb.add c).maxSamples = cb.maxSamples := by
  obtain ⟨m, b⟩ := cb
  rw [CircularBuffer.add_def]
  by_cases h : (b ++ c).length > m
  · rw [if_pos h]
    by_cases h0 : m = 0
    · rw [if_pos h0]
    · rw [if_neg h0]
  · rw [if_neg h]

theorem CircularBuffer.add_buffer_length_le (cb : CircularBuffer) (c : List Sample)
    (hm : 0 < cb.maxSamples) : (cb.add c).buffer.length ≤ cb.maxSamples := by
  obtain ⟨m, b⟩ := cb
  rw [CircularBuffer.add_eq_tailN m b c hm]
  exact tailN_length_le m (b ++ c)

theorem tailN_append_tailN (m : Nat) (A c : List Sample) :
    tailN m (tailN m A ++ c) = tailN m (A ++ c) := by
  unfold tailN
  rw [List.drop_append_eq_append_drop, List.drop_append_eq_append_drop, List.drop_drop]
  simp only [List.length_append, List.length_drop]
  congr 1
  · congr 1
    omega
  · congr 1
    omega

/-- Folding a sequence of `add` calls from the empty buffer. -/
def cbFromAdds (m : Nat) (chunks : List (List Sample)) : CircularBuffer :=
  chunks.foldl CircularBuffer.add ⟨m, []⟩

theorem cbFromAdds_buffer (m : Nat) (hm : 0 < m) (chunks : List (List Sample)) :
    (cbFromAdds m chunks).buffer = tailN m chunks.flatten := by
  suffices h : ∀ (A : List Sample),
      (chunks.foldl CircularBuffer.add ⟨m, tailN m A⟩).buffer = tailN m (A ++ chunks.flatten) by
    have := h []
    simpa [cbFromAdds, tailN] using this
  induction chunks with
  | nil => intro A; simp [tailN]
  | cons c cs ih =>
    intro A
    have hstep : CircularBuffer.add ⟨m, tailN m A⟩ c = ⟨m, tailN m (A ++ c)⟩ := by
      apply CircularBuffer.eq_of_fields
      · exact CircularBuffer.add_maxSamples ⟨m, tailN m A⟩ c
      · rw [CircularBuffer.add_eq_tailN m (tailN m A) c hm, tailN_append_tailN]
    rw [List.foldl_cons, hstep, ih (A ++ c)]
    simp [List.append_assoc]

theorem foldl_add_maxSamples (chunks : List (List Sample)) (cb : CircularBuffer) :
    (chunks.foldl CircularBuffer.add cb).maxSamples = cb.maxSamples := by
  induction chunks generalizing cb with
  | nil => rfl
  | cons c cs ih => rw [List.foldl_cons, ih, CircularBuffer.add_maxSamples]

theorem cbFromAdds_maxSamples (m : Nat) (chunks : List (List Sample)) :
    (cbFromAdds m chunks).maxSamples = m :=
  foldl_add_maxSamples chunks ⟨m, []⟩

/-! ## Voice activity detector (src/whisper/test_transcribe.py, lines 43-65)

The source computes `rms = sqrt(mean((s/32768)^2))` in floating point and
returns `rms > threshold`.  The embedding decides the equivalent exact
condition: for a nonempty frame and `threshold ≥ 0`,
`sqrt m > t ↔ m > t^2`; for `threshold < 0` any nonempty frame satisfies
`rms ≥ 0 > threshold`.  For the empty frame NumPy's mean is NaN and
`nan > threshold` is false, so the source returns false; the embedding
returns false directly.  The bridging theorem for claim C7 proves this
definition equivalent to the square-root formulation over ℝ. -/

def meanSquare (samples : List Sample) : ℚ :=
  ((samples.map (fun (s : Sample) => ((s : ℚ) / 32768) ^ 2)).sum) / samples.length

def detect_voice_activity (samples : List Sample) (threshold : ℚ) : Bool :=
  if samples.isEmpty then false
  else if threshold < 0 then true
  else decide (threshold ^ 2 < meanSquare samples)

theorem meanSquare_nonneg (samples : List Sample) : 0 ≤ meanSquare samples := by
  unfold meanSquare
  apply div_nonneg
  · apply List.sum_nonneg
    intro x hx
    simp only [List.mem_map] at hx
    obtain ⟨s, _, rfl⟩ := hx
    positivity
  · exact_mod_cast Nat.zero_le _

/-- C2: for every sequence of `add()` calls on the pre-roll `CircularBuffer`
(with positive capacity, `capacityBytes = 2 * maxSamples` fixed at
construction), after every call the buffer length is at most the capacity,
and the retained samples are exactly the most-recently-added suffix of the
concatenation of all added chunks (here `tailN maxSamples` of the flattened
chunk list; byte lengths are twice the sample lengths). -/
theorem C2_preroll_bound_and_suffix (m : Nat) (chunks : List (List Sample)) (hm : 0 < m) :
    ∀ k : Nat,
      (cbFromAdds m (chunks.take k)).buffer.length ≤ m ∧
      (cbFromAdds m (chunks.take k)).buffer = tailN m (chunks.take k).flatten ∧
      (cbFromAdds m (chunks.take k)).buffer.IsSuffix (chunks.take k).flatten := by
  intro k
  have hb := cbFromAdds_buffer m hm (chunks.take k)
  refine ⟨?_, hb, ?_⟩
  · rw [hb]
    exact tailN_length_le _ _
  · rw [hb]
    exact tailN_suffix _ _

theorem C2_witness :
    0 < 2 ∧
      ((cbFromAdds 2 ([[1], [2], [3]].take 3)).buffer.length ≤ 2 ∧
        (cbFromAdds 2 ([[1], [2], [3]].take 3)).buffer = tailN 2 ([[1], [2], [3]].take 3).flatten ∧
        (cbFromAdds 2 ([[1], [2], [3]].take 3)).buffer.IsSuffix ([[1], [2], [3]].take 3).flatten) :=
  ⟨by decide, C2_preroll_bound_and_suffix 2 [[1], [2], [3]] (by decide) 3⟩

/-- C7: the voice activity detector returns true iff the RMS of the samples
normalized by 32768 exceeds the threshold (`RMS = sqrt(mean(sample^2))`,
stated over ℝ); an empty frame returns false, and an all-zero frame returns
false for every threshold > 0. -/
theorem C7_vad_rms_threshold (samples : List Sample) (t : ℚ) :
    detect_voice_activity [] t = false ∧
    (samples ≠ [] →
      (detect_voice_activity samples t = true ↔
        (t : ℝ) < Real.sqrt ((meanSquare samples : ℚ) : ℝ))) ∧
    (∀ n : ℕ, 0 < t → detect_voice_activity (List.replicate n (0 : Sample)) t = false) := by
  refine ⟨rfl, ?_, ?_⟩
  · intro hne
    have hisEmpty : samples.isEmpty = false := by
      cases samples with
      | nil => exact absurd rfl hne
      | cons a l => rfl
    unfold detect_voice_activity
    rw [hisEmpty]
    simp only [Bool.false_eq_true, if_false]
    by_cases ht : t < 0
    · rw [if_pos ht]
      constructor
      · intro _
        have h1 : (t : ℝ) < 0 := by exact_mod_cast ht
        exact lt_of_lt_of_le h1 (Real.sqrt_nonneg _)
      · intro _
        rfl
    · rw [if_neg ht]
      push_neg at ht
      have ht' : (0 : ℝ) ≤ (t : ℝ) := by exact_mod_cast ht
      rw [decide_eq_true_iff, Real.lt_sqrt ht']
      constructor
      · intro h
        exact_mod_cast h
      · intro h
        exact_mod_cast h
  · intro n ht
    cases n with
    | zero => rfl
    | succ k =>
      unfold detect_voice_activity
      have hne : (List.replicate (k + 1) (0 : Sample)).isEmpty = false := by simp
      rw [hne]
      simp only [Bool.false_eq_true, if_false]
      rw [if_neg (not_lt.mpr (le_of_lt ht))]
      have hms : meanSquare (List.replicate (k + 1) (0 : Sample)) = 0 := by
        unfold meanSquare
        rw [List.map_replicate]
        norm_num
      rw [hms]
      simp only [decide_eq_false_iff_not]
      exact not_lt.mpr (sq_nonneg t)

theorem C7_witness :
    ((List.replicate 2 (-5 : Sample) ≠ []) ∧
        (detect_voice_activity (List.replicate 2 (-5)) (1/2) = true ↔
          ((1/2 : ℚ) : ℝ) < Real.sqrt ((meanSquare (List.replicate 2 (-5)) : ℚ) : ℝ))) ∧
      (0 : ℚ) < 1 ∧ detect_voice_activity (List.replicate 3 (0 : Sample)) 1 = false :=
  ⟨⟨by decide, (C7_vad_rms_threshold (List.replicate 2 (-5)) (1/2)).2.1 (by decide)⟩,
    by norm_num, (C7_vad_rms_threshold [] 1).2.2 3 (by norm_num)⟩

/-! ## VAD streaming loop (src/whisper/test_transcribe.py, lines 94-194)

One loop iteration of `stream_with_vad` reads a frame, always does
`pre_roll.add(audio_bytes)`, classifies the frame, and then updates the
accumulator (`current_chunk`, `speech_active`, `silence_duration`,
`chunk_duration`), yielding completed segments.  `vadStep` is that loop
body in if-normal-form: the Python code seeds
`current_chunk = pre_roll.get_all(); chunk_duration = len(current_chunk)/BYTES_PER_SECOND;
silence_duration = 0` when voice arrives while `speech_active` is false,
then (in both voice cases) extends `current_chunk` with the frame, adds
`chunk_seconds`, zeroes `silence_duration`, and emits/resets when
`chunk_duration >= max_duration`.  Here the seed branch and the
already-active branch are written out separately with the common extend
inlined.  `chunk_seconds = len(audio_bytes)/BYTES_PER_SECOND` is
`secondsOf` (sample count / 16000).  `vadSteps` runs the loop over a
finite frame list (the list end models the interrupt that stops the
generator), and `stream_with_vad` appends the final
`if speech_active and current_chunk: yield bytes(current_chunk)` flush. -/

structure VadConfig where
  maxDuration : ℚ
  preRollMaxSamples : Nat
  silenceTimeout : ℚ
  vadThreshold : ℚ
deriving DecidableEq

structure VadState where
  preRoll : CircularBuffer
  current : List Sample
  speechActive : Bool
  silenceDuration : ℚ
  chunkDuration : ℚ
deriving DecidableEq

def secondsOf (samples : List Sample) : ℚ := (samples.length : ℚ) / 16000

def vadStep (cfg : VadConfig) (s : VadState) (f : List Sample) : VadState × List (List Sample) :=
  if detect_voice_activity f cfg.vadThreshold then
    if s.speechActive then
      if cfg.maxDuration ≤ s.chunkDuration + secondsOf f then
        (⟨s.preRoll.add f, [], true, 0, 0⟩, [s.current ++ f])
      else
        (⟨s.preRoll.add f, s.current ++ f, true, 0, s.chunkDuration + secondsOf f⟩, [])
    else
      if cfg.maxDuration ≤ secondsOf (s.preRoll.add f).get_all + secondsOf f then
        (⟨s.preRoll.add f, [], true, 0, 0⟩, [(s.preRoll.add f).get_all ++ f])
      else
        (⟨s.preRoll.add f, (s.preRoll.add f).get_all ++ f, true, 0,
          secondsOf (s.preRoll.add f).get_all + secondsOf f⟩, [])
  else if s.speechActive then
    if cfg.silenceTimeout ≤ s.silenceDuration + secondsOf f ∨
        cfg.maxDuration ≤ s.chunkDuration + secondsOf f then
      (⟨s.preRoll.add f, [], false, 0, 0⟩, [s.current ++ f])
    else
      (⟨s.preRoll.add f, s.current ++ f, true, s.silenceDuration + secondsOf f,
        s.chunkDuration + secondsOf f⟩, [])
  else
    ({ s with preRoll := s.preRoll.add f }, [])

def vadSteps (cfg : VadConfig) : VadState → List (List Sample) → VadState × List (List Sample)
  | s, [] => (s, [])
  | s, f :: fs =>
    ((vadSteps cfg (vadStep cfg s f).1 fs).1,
      (vadStep cfg s f).2 ++ (vadSteps cfg (vadStep cfg s f).1 fs).2)

def initState (cfg : VadConfig) : VadState := ⟨⟨cfg.preRollMaxSamples, []⟩, [], false, 0, 0⟩

def stream_with_vad (cfg : VadConfig) (frames : List (List Sample)) : List (List Sample) :=
  if (vadSteps cfg (initState cfg) frames).1.speechActive
      && !(vadSteps cfg (initState cfg) frames).1.current.isEmpty then
    (vadSteps cfg (initState cfg) frames).2 ++ [(vadSteps cfg (initState cfg) frames).1.current]
  else
    (vadSteps cfg (initState cfg) frames).2

theorem secondsOf_append (a b : List Sample) : secondsOf (a ++ b) = secondsOf a + secondsOf b := by
  unfold secondsOf
  rw [List.length_append]
  push_cast
  ring

theorem secondsOf_nonneg (a : List Sample) : 0 ≤ secondsOf a := by
  unfold secondsOf
  positivity

theorem vadSteps_append (cfg : VadConfig) (s : VadState) (xs ys : List (List Sample)) :
    vadSteps cfg s (xs ++ ys) =
      ((vadSteps cfg (vadSteps cfg s xs).1 ys).1,
        (vadSteps cfg s xs).2 ++ (vadSteps cfg (vadSteps cfg s xs).1 ys).2) := by
  induction xs generalizing s with
  | nil => simp [vadSteps]
  | cons f fs ih => simp [vadSteps, ih, List.append_assoc]

/-! Branch characterizations of `vadStep`. -/

theorem vadStep_active_voice_emit (cfg : VadConfig) (s : VadState) (f : List Sample)
    (ha : s.speechActive = true) (hv : detect_voice_activity f cfg.vadThreshold = true)
    (hd : cfg.maxDuration ≤ s.chunkDuration + secondsOf f) :
    vadStep cfg s f = (⟨s.preRoll.add f, [], true, 0, 0⟩, [s.current ++ f]) := by
  unfold vadStep
  rw [hv, ha]
  simp [hd]

theorem vadStep_active_voice_cont (cfg : VadConfig) (s : VadState) (f : List Sample)
    (ha : s.speechActive = true) (hv : detect_voice_activity f cfg.vadThreshold = true)
    (hd : s.chunkDuration + secondsOf f < cfg.maxDuration) :
    vadStep cfg s f =
      (⟨s.preRoll.add f, s.current ++ f, true, 0, s.chunkDuration + secondsOf f⟩, []) := by
  unfold vadStep
  rw [hv, ha]
  simp [not_le.mpr hd]

theorem vadStep_seed_cont (cfg : VadConfig) (s : VadState) (f : List Sample)
    (ha : s.speechActive = false) (hv : detect_voice_activity f cfg.vadThreshold = true)
    (hd : secondsOf (s.preRoll.add f).get_all + secondsOf f < cfg.maxDuration) :
    vadStep cfg s f =
      (⟨s.preRoll.add f, (s.preRoll.add f).get_all ++ f, true, 0,
        secondsOf (s.preRoll.add f).get_all + secondsOf f⟩, []) := by
  unfold vadStep
  rw [hv, ha]
  simp [not_le.mpr hd]

theorem vadStep_seed_emit (cfg : VadConfig) (s : VadState) (f : List Sample)
    (ha : s.speechActive = false) (hv : detect_voice_activity f cfg.vadThreshold = true)
    (hd : cfg.maxDuration ≤ secondsOf (s.preRoll.add f).get_all + secondsOf f) :
    vadStep cfg s f = (⟨s.preRoll.add f, [], true, 0, 0⟩, [(s.preRoll.add f).get_all ++ f]) := by
  unfold vadStep
  rw [hv, ha]
  simp [hd]

theorem vadStep_silence_emit (cfg : VadConfig) (s : VadState) (f : List Sample)
    (ha : s.speechActive = true) (hv : detect_voice_activity f cfg.vadThreshold = false)
    (hd : cfg.silenceTimeout ≤ s.silenceDuration + secondsOf f ∨
      cfg.maxDuration ≤ s.chunkDuration + secondsOf f) :
    vadStep cfg s f = (⟨s.preRoll.add f, [], false, 0, 0⟩, [s.current ++ f]) := by
  unfold vadStep
  rw [hv, ha]
  simp [hd]

theorem vadStep_silence_cont (cfg : VadConfig) (s : VadState) (f : List Sample)
    (ha : s.speechActive = true) (hv : detect_voice_activity f cfg.vadThreshold = false)
    (h1 : s.silenceDuration + secondsOf f < cfg.silenceTimeout)
    (h2 : s.chunkDuration + secondsOf f < cfg.maxDuration) :
    vadStep cfg s f =
      (⟨s.preRoll.add f, s.current ++ f, true, s.silenceDuration + secondsOf f,
        s.chunkDuration + secondsOf f⟩, []) := by
  unfold vadStep
  rw [hv, ha]
  have : ¬(cfg.silenceTimeout ≤ s.silenceDuration + secondsOf f ∨
      cfg.maxDuration ≤ s.chunkDuration + secondsOf f) := by
    push_neg
    exact ⟨h1, h2⟩
  simp [this]

theorem vadStep_idle (cfg : VadConfig) (s : VadState) (f : List Sample)
    (ha : s.speechActive = false) (hv : detect_voice_activity f cfg.vadThreshold = false) :
    vadStep cfg s f = ({ s with preRoll := s.preRoll.add f }, []) := by
  unfold vadStep
  rw [hv, ha]
  simp

theorem vadStep_preRoll (cfg : VadConfig) (s : VadState) (f : List Sample) :
    (vadStep cfg s f).1.preRoll = s.preRoll.add f := by
  unfold vadStep
  split
  · split
    · split <;> rfl
    · split <;> rfl
  · split
    · split <;> rfl
    · rfl

/-- C4 as amended: the streaming loop never calls `clear()` on the pre-roll
buffer.  On every step the pre-roll is updated only by `add`; in particular
when a segment closes due to silence timeout the segment buffer and both
counters are reset and the accumulator goes Idle, but the pre-roll buffer
retains its (just-updated) contents instead of becoming empty. -/
theorem C4_amended_no_preroll_clear (cfg : VadConfig) (s : VadState) (f : List Sample) :
    (vadStep cfg s f).1.preRoll = s.preRoll.add f ∧
    (s.speechActive = true → detect_voice_activity f cfg.vadThreshold = false →
      cfg.silenceTimeout ≤ s.silenceDuration + secondsOf f →
      vadStep cfg s f = (⟨s.preRoll.add f, [], false, 0, 0⟩, [s.current ++ f])) :=
  ⟨vadStep_preRoll cfg s f, fun ha hv hsil =>
    vadStep_silence_emit cfg s f ha hv (Or.inl hsil)⟩

unseal Rat.mul Rat.add Rat.inv Rat.sub in
/-- C4, claim as stated, is false: a run in which the only segment closes by
silence timeout, after which the accumulator is Idle yet the pre-roll
buffer is nonempty (it still holds the most recent sample), with the
configuration maxDuration 1000 s, pre-roll capacity 1 sample,
silenceTimeout 1/8000 s, threshold 0.02. -/
theorem C4_counterexample :
    (vadSteps ⟨1000, 1, 1/8000, 1/50⟩ (initState ⟨1000, 1, 1/8000, 1/50⟩)
        [[16384, 16384], [0, 0]]).2.length = 1 ∧
    (vadSteps ⟨1000, 1, 1/8000, 1/50⟩ (initState ⟨1000, 1, 1/8000, 1/50⟩)
        [[16384, 16384], [0, 0]]).1.speechActive = false ∧
    (vadSteps ⟨1000, 1, 1/8000, 1/50⟩ (initState ⟨1000, 1, 1/8000, 1/50⟩)
        [[16384, 16384], [0, 0]]).1.preRoll.buffer ≠ [] := by
  decide

unseal Rat.mul Rat.add Rat.inv Rat.sub in
theorem C4_witness :
    ((⟨⟨4, [7]⟩, [9], true, 0, 0⟩ : VadState).speechActive = true ∧
      detect_voice_activity [0, 0] (⟨1000, 4, 1/8000, 1/50⟩ : VadConfig).vadThreshold = false ∧
      (⟨1000, 4, 1/8000, 1/50⟩ : VadConfig).silenceTimeout ≤
        (⟨⟨4, [7]⟩, [9], true, 0, 0⟩ : VadState).silenceDuration + secondsOf [0, 0]) ∧
    vadStep ⟨1000, 4, 1/8000, 1/50⟩ ⟨⟨4, [7]⟩, [9], true, 0, 0⟩ [0, 0]
      = (⟨CircularBuffer.add ⟨4, [7]⟩ [0, 0], [], false, 0, 0⟩, [[9] ++ [0, 0]]) :=
  ⟨⟨rfl, by decide, by decide⟩,
    (C4_amended_no_preroll_clear ⟨1000, 4, 1/8000, 1/50⟩ ⟨⟨4, [7]⟩, [9], true, 0, 0⟩ [0, 0]).2
      rfl (by decide) (by decide)⟩

/-- C6: if the capture loop is stopped while the accumulator is Active with
a non-empty in-progress buffer, `stream_with_vad` emits that buffer as one
final segment after the loop's own emissions (and only then); with the
accumulator Idle or the buffer empty no extra segment is appended. -/
theorem C6_stop_flushes (cfg : VadConfig) (frames : List (List Sample)) :
    ((vadSteps cfg (initState cfg) frames).1.speechActive = true →
      (vadSteps cfg (initState cfg) frames).1.current ≠ [] →
      stream_with_vad cfg frames =
        (vadSteps cfg (initState cfg) frames).2 ++
          [(vadSteps cfg (initState cfg) frames).1.current]) ∧
    (((vadSteps cfg (initState cfg) frames).1.speechActive = false ∨
        (vadSteps cfg (initState cfg) frames).1.current = []) →
      stream_with_vad cfg frames = (vadSteps cfg (initState cfg) frames).2) := by
  constructor
  · intro ha hc
    unfold stream_with_vad
    rw [if_pos]
    rw [ha, Bool.true_and, Bool.not_eq_true', List.isEmpty_eq_false]
    exact hc
  · intro h
    unfold stream_with_vad
    rw [if_neg]
    rcases h with h | h
    · rw [h]
      simp
    · rw [h]
      simp

unseal Rat.mul Rat.add Rat.inv Rat.sub in
theorem C6_witness :
    ((vadSteps ⟨1000, 4, 1, 1/50⟩ (initState ⟨1000, 4, 1, 1/50⟩) [[16384]]).1.speechActive = true ∧
      (vadSteps ⟨1000, 4, 1, 1/50⟩ (initState ⟨1000, 4, 1, 1/50⟩) [[16384]]).1.current ≠ []) ∧
    stream_with_vad ⟨1000, 4, 1, 1/50⟩ [[16384]] =
      (vadSteps ⟨1000, 4, 1, 1/50⟩ (initState ⟨1000, 4, 1, 1/50⟩) [[16384]]).2 ++
        [(vadSteps ⟨1000, 4, 1, 1/50⟩ (initState ⟨1000, 4, 1, 1/50⟩) [[16384]]).1.current] :=
  ⟨⟨by decide, by decide⟩,
    (C6_stop_flushes ⟨1000, 4, 1, 1/50⟩ [[16384]]).1 (by decide) (by decide)⟩

theorem vadSteps_nil (cfg : VadConfig) (s : VadState) : vadSteps cfg s [] = (s, []) := rfl

theorem vadSteps_cons (cfg : VadConfig) (s : VadState) (f : List Sample)
    (fs : List (List Sample)) :
    vadSteps cfg s (f :: fs) =
      ((vadSteps cfg (vadStep cfg s f).1 fs).1,
        (vadStep cfg s f).2 ++ (vadSteps cfg (vadStep cfg s f).1 fs).2) := rfl

theorem secondsOf_nil : secondsOf [] = 0 := by
  simp [secondsOf]

/-! Branch characterizations with the state in constructor form. -/

theorem vadStep_voice_emit' (cfg : VadConfig) (pr : CircularBuffer) (cur : List Sample)
    (sil d : ℚ) (f : List Sample) (hv : detect_voice_activity f cfg.vadThreshold = true)
    (hd : cfg.maxDuration ≤ d + secondsOf f) :
    vadStep cfg ⟨pr, cur, true, sil, d⟩ f = (⟨pr.add f, [], true, 0, 0⟩, [cur ++ f]) :=
  vadStep_active_voice_emit cfg ⟨pr, cur, true, sil, d⟩ f rfl hv hd

theorem vadStep_voice_cont' (cfg : VadConfig) (pr : CircularBuffer) (cur : List Sample)
    (sil d : ℚ) (f : List Sample) (hv : detect_voice_activity f cfg.vadThreshold = true)
    (hd : d + secondsOf f < cfg.maxDuration) :
    vadStep cfg ⟨pr, cur, true, sil, d⟩ f =
      (⟨pr.add f, cur ++ f, true, 0, d + secondsOf f⟩, []) :=
  vadStep_active_voice_cont cfg ⟨pr, cur, true, sil, d⟩ f rfl hv hd

/-- Feeding `j` voice frames to an Active accumulator with zero silence,
none of which reaches the max-duration cutoff, extends the buffer by the
frames and the duration by `j` frame-durations, with no emission. -/
theorem vadSteps_voice_run (cfg : VadConfig) (g : List Sample)
    (hv : detect_voice_activity g cfg.vadThreshold = true) :
    ∀ (j : ℕ) (pr : CircularBuffer) (cur : List Sample) (d : ℚ),
      d + j * secondsOf g < cfg.maxDuration →
      ∃ pr' : CircularBuffer,
        vadSteps cfg ⟨pr, cur, true, 0, d⟩ (List.replicate j g)
          = (⟨pr', cur ++ (List.replicate j g).flatten, true, 0, d + j * secondsOf g⟩, []) := by
  intro j
  induction j with
  | zero =>
    intro pr cur d hd
    refine ⟨pr, ?_⟩
    simp [vadSteps_nil, List.replicate]
  | succ n ih =>
    intro pr cur d hd
    have hsg : 0 ≤ secondsOf g := secondsOf_nonneg g
    have hd' : d + ((n : ℚ) + 1) * secondsOf g < cfg.maxDuration := by
      push_cast at hd
      linarith
    have hstep : d + secondsOf g < cfg.maxDuration := by
      nlinarith
    obtain ⟨pr', hrun⟩ := ih (pr.add g) (cur ++ g) (d + secondsOf g) (by linarith)
    refine ⟨pr', ?_⟩
    rw [List.replicate_succ, vadSteps_cons, vadStep_voice_cont' cfg pr cur 0 d g hv hstep, hrun]
    have e1 : (cur ++ g) ++ (List.replicate n g).flatten
        = cur ++ (g :: List.replicate n g).flatten := by
      simp [List.append_assoc]
    have e2 : d + secondsOf g + (n : ℚ) * secondsOf g
        = d + ((n + 1 : ℕ) : ℚ) * secondsOf g := by
      push_cast
      ring
    rw [e1, e2]
    simp

/-- C10 (implicit): on an Idle-to-Active transition the frame is first
added to the pre-roll buffer, the segment buffer is seeded from the
post-add snapshot, and the frame is then appended again; when the frame
fits in the (positive) pre-roll capacity the snapshot ends with the frame,
so the onset frame occurs twice in the seeded segment and the measured
duration counts it twice. -/
theorem C10_onset_frame_double (cfg : VadConfig) (s : VadState) (f : List Sample)
    (ha : s.speechActive = false) (hv : detect_voice_activity f cfg.vadThreshold = true)
    (hcap : 0 < s.preRoll.maxSamples) (hfit : f.length ≤ s.preRoll.maxSamples)
    (hnoemit : secondsOf (s.preRoll.add f).get_all + secondsOf f < cfg.maxDuration) :
    ∃ rest : List Sample,
      (s.preRoll.add f).get_all = rest ++ f ∧
      vadStep cfg s f =
        (⟨s.preRoll.add f, rest ++ f ++ f, true, 0,
          secondsOf rest + secondsOf f + secondsOf f⟩, []) := by
  obtain ⟨spr, cur, sa, sil, d⟩ := s
  obtain ⟨m, b⟩ := spr
  simp only at ha hcap hfit
  have hsnap : (CircularBuffer.add ⟨m, b⟩ f).get_all
      = (b.drop (b.length + f.length - m)) ++ f := by
    unfold CircularBuffer.get_all
    rw [CircularBuffer.add_eq_tailN m b f hcap]
    unfold tailN
    rw [List.length_append, List.drop_append_eq_append_drop]
    have h0 : b.length + f.length - m - b.length = 0 := by omega
    rw [h0, List.drop_zero]
  refine ⟨b.drop (b.length + f.length - m), hsnap, ?_⟩
  rw [vadStep_seed_cont cfg ⟨⟨m, b⟩, cur, sa, sil, d⟩ f ha hv hnoemit]
  simp only [hsnap, secondsOf_append, List.append_assoc]

unseal Rat.mul Rat.add Rat.inv Rat.sub in
theorem C10_witness :
    ((initState ⟨1000, 4, 1, 1/50⟩).speechActive = false ∧
      detect_voice_activity [16384] (⟨1000, 4, 1, 1/50⟩ : VadConfig).vadThreshold = true ∧
      0 < (initState ⟨1000, 4, 1, 1/50⟩).preRoll.maxSamples ∧
      ([16384] : List Sample).length ≤ (initState ⟨1000, 4, 1, 1/50⟩).preRoll.maxSamples ∧
      secondsOf ((initState ⟨1000, 4, 1, 1/50⟩).preRoll.add [16384]).get_all + secondsOf [16384]
        < (⟨1000, 4, 1, 1/50⟩ : VadConfig).maxDuration) ∧
    (∃ rest : List Sample,
      ((initState ⟨1000, 4, 1, 1/50⟩).preRoll.add [16384]).get_all = rest ++ [16384] ∧
      vadStep ⟨1000, 4, 1, 1/50⟩ (initState ⟨1000, 4, 1, 1/50⟩) [16384] =
        (⟨(initState ⟨1000, 4, 1, 1/50⟩).preRoll.add [16384],
          rest ++ [16384] ++ [16384], true, 0,
          secondsOf rest + secondsOf [16384] + secondsOf [16384]⟩, [])) :=
  ⟨⟨rfl, by decide, by decide, by decide, by decide⟩,
    C10_onset_frame_double ⟨1000, 4, 1, 1/50⟩ (initState ⟨1000, 4, 1, 1/50⟩) [16384]
      rfl (by decide) (by decide) (by decide) (by decide)⟩

theorem meanSquare_replicate (n : ℕ) (hn : 0 < n) (c : Sample) :
    meanSquare (List.replicate n c) = ((c : ℚ) / 32768) ^ 2 := by
  unfold meanSquare
  rw [List.map_replicate, List.sum_replicate, List.length_replicate, nsmul_eq_mul, mul_comm,
    mul_div_assoc, div_self, mul_one]
  exact_mod_cast Nat.pos_iff_ne_zero.mp hn

theorem detect_voice_activity_replicate (n : ℕ) (hn : 0 < n) (c : Sample) (t : ℚ)
    (ht : 0 ≤ t) (h : t ^ 2 < ((c : ℚ) / 32768) ^ 2) :
    detect_voice_activity (List.replicate n c) t = true := by
  unfold detect_voice_activity
  have hne : (List.replicate n c).isEmpty = false := by
    rw [List.isEmpty_eq_false]
    intro hcontra
    have := congrArg List.length hcontra
    simp at this
    omega
  rw [hne]
  simp only [Bool.false_eq_true, if_false]
  rw [if_neg (not_lt.mpr ht)]
  rw [meanSquare_replicate n hn c]
  exact decide_eq_true h

/-! Scenario computations for the max-duration split (claim C3): 60 frames
of 0.1 s (1600 samples) of above-threshold audio, with the program's
configuration maxDuration 5.0 s, pre-roll capacity int(0.5*16000) = 8000
samples, silenceTimeout 0.3 s, threshold 0.02. -/

theorem vadStep_scenario_seed (g : List Sample) (hlen : g.length = 1600)
    (hv : detect_voice_activity g (1/50) = true) :
    vadStep ⟨5, 8000, 3/10, 1/50⟩ (initState ⟨5, 8000, 3/10, 1/50⟩) g
      = (⟨⟨8000, g⟩, g ++ g, true, 0, secondsOf g + secondsOf g⟩, []) := by
  have hsec : secondsOf g = 1/10 := by
    unfold secondsOf
    rw [hlen]
    norm_num
  have hadd : CircularBuffer.add ⟨8000, []⟩ g = ⟨8000, g⟩ := by
    rw [CircularBuffer.add_def]
    rw [if_neg]
    · simp
    · rw [List.nil_append, hlen]
      omega
  have hpr : (initState ⟨5, 8000, 3/10, 1/50⟩).preRoll = ⟨8000, []⟩ := rfl
  have hno : secondsOf ((initState ⟨5, 8000, 3/10, 1/50⟩).preRoll.add g).get_all + secondsOf g
      < (⟨5, 8000, 3/10, 1/50⟩ : VadConfig).maxDuration := by
    rw [hpr, hadd]
    show secondsOf g + secondsOf g < 5
    rw [hsec]
    norm_num
  rw [vadStep_seed_cont ⟨5, 8000, 3/10, 1/50⟩ (initState ⟨5, 8000, 3/10, 1/50⟩) g rfl hv hno,
    hpr, hadd]
  rfl

theorem vadSteps_scenario_49 (g : List Sample) (hlen : g.length = 1600)
    (hv : detect_voice_activity g (1/50) = true) :
    ∃ (pr' : CircularBuffer) (seg : List Sample),
      vadSteps ⟨5, 8000, 3/10, 1/50⟩ (initState ⟨5, 8000, 3/10, 1/50⟩) (List.replicate 49 g)
        = (⟨pr', [], true, 0, 0⟩, [seg]) := by
  have hsec : secondsOf g = 1/10 := by
    unfold secondsOf
    rw [hlen]
    norm_num
  have h1 : vadSteps ⟨5, 8000, 3/10, 1/50⟩ (initState ⟨5, 8000, 3/10, 1/50⟩) [g]
      = ((⟨⟨8000, g⟩, g ++ g, true, 0, secondsOf g + secondsOf g⟩ : VadState), []) := by
    rw [vadSteps_cons, vadStep_scenario_seed g hlen hv]
    rfl
  obtain ⟨pr2, h2⟩ := vadSteps_voice_run ⟨5, 8000, 3/10, 1/50⟩ g hv 47 ⟨8000, g⟩ (g ++ g)
    (secondsOf g + secondsOf g) (by rw [hsec]; push_cast; norm_num)
  have h3 : vadSteps ⟨5, 8000, 3/10, 1/50⟩ ⟨pr2, g ++ g ++ (List.replicate 47 g).flatten, true, 0,
      secondsOf g + secondsOf g + ((47 : ℕ) : ℚ) * secondsOf g⟩ [g]
      = ((⟨pr2.add g, [], true, 0, 0⟩ : VadState),
        [(g ++ g ++ (List.replicate 47 g).flatten) ++ g]) := by
    rw [vadSteps_cons, vadStep_voice_emit' ⟨5, 8000, 3/10, 1/50⟩ pr2
      (g ++ g ++ (List.replicate 47 g).flatten) 0
      (secondsOf g + secondsOf g + ((47 : ℕ) : ℚ) * secondsOf g) g hv
      (by rw [hsec]; push_cast; norm_num)]
    rfl
  refine ⟨pr2.add g, (g ++ g ++ (List.replicate 47 g).flatten) ++ g, ?_⟩
  rw [show (49 : ℕ) = 1 + (47 + 1) from rfl, List.replicate_add, List.replicate_add,
    show List.replicate 1 g = [g] from rfl, vadSteps_append, h1]
  dsimp only
  rw [vadSteps_append, h2]
  dsimp only
  rw [h3]
  rfl

theorem vadSteps_scenario_49_plus (g : List Sample) (hlen : g.length = 1600)
    (hv : detect_voice_activity g (1/50) = true) (j : ℕ) (hj : j ≤ 11) :
    ∃ (pr' : CircularBuffer) (seg : List Sample),
      vadSteps ⟨5, 8000, 3/10, 1/50⟩ (initState ⟨5, 8000, 3/10, 1/50⟩)
          (List.replicate (49 + j) g)
        = (⟨pr', (List.replicate j g).flatten, true, 0, (j : ℚ) * secondsOf g⟩, [seg]) := by
  have hsec : secondsOf g = 1/10 := by
    unfold secondsOf
    rw [hlen]
    norm_num
  obtain ⟨pr1, seg, h49⟩ := vadSteps_scenario_49 g hlen hv
  have hbound : (0 : ℚ) + (j : ℚ) * secondsOf g
      < (⟨5, 8000, 3/10, 1/50⟩ : VadConfig).maxDuration := by
    have hj' : (j : ℚ) ≤ 11 := by exact_mod_cast hj
    rw [hsec]
    show (0 : ℚ) + (j : ℚ) * (1/10) < 5
    nlinarith
  obtain ⟨pr', hrun⟩ := vadSteps_voice_run ⟨5, 8000, 3/10, 1/50⟩ g hv j pr1 [] 0 hbound
  refine ⟨pr', seg, ?_⟩
  rw [List.replicate_add, vadSteps_append, h49]
  dsimp only
  rw [hrun]
  simp

/-- C3: when the accumulator is Active and a voice frame pushes the elapsed
duration to reach maxSegmentSeconds, the step emits the buffer (with the
frame appended), resets the buffer and both counters, and remains Active;
a segment emitted from an Active state is always exactly the previous
buffer plus the frame, never re-seeded from the pre-roll snapshot; and
consequently 60 frames of 0.1 s of above-threshold audio (6 s total) with
maxSegmentSeconds = 5.0 yield exactly two segments, with the accumulator
Active (and exactly one segment emitted) after each of frames 49..60. -/
theorem C3_maxduration_split (cfg : VadConfig) (s : VadState) (f : List Sample) :
    (s.speechActive = true → detect_voice_activity f cfg.vadThreshold = true →
      cfg.maxDuration ≤ s.chunkDuration + secondsOf f →
      vadStep cfg s f = (⟨s.preRoll.add f, [], true, 0, 0⟩, [s.current ++ f])) ∧
    (s.speechActive = true →
      (vadStep cfg s f).2 = [] ∨ (vadStep cfg s f).2 = [s.current ++ f]) ∧
    (∀ g : List Sample, g.length = 1600 → detect_voice_activity g (1/50) = true →
      (stream_with_vad ⟨5, 8000, 3/10, 1/50⟩ (List.replicate 60 g)).length = 2 ∧
      ∀ k : ℕ, 49 ≤ k → k ≤ 60 →
        (vadSteps ⟨5, 8000, 3/10, 1/50⟩ (initState ⟨5, 8000, 3/10, 1/50⟩)
            (List.replicate k g)).1.speechActive = true ∧
        (vadSteps ⟨5, 8000, 3/10, 1/50⟩ (initState ⟨5, 8000, 3/10, 1/50⟩)
            (List.replicate k g)).2.length = 1) := by
  refine ⟨fun ha hv hd => vadStep_active_voice_emit cfg s f ha hv hd, ?_, ?_⟩
  · intro ha
    by_cases hv : detect_voice_activity f cfg.vadThreshold = true
    · by_cases hd : cfg.maxDuration ≤ s.chunkDuration + secondsOf f
      · right
        rw [vadStep_active_voice_emit cfg s f ha hv hd]
      · left
        rw [vadStep_active_voice_cont cfg s f ha hv (not_le.mp hd)]
    · have hv' : detect_voice_activity f cfg.vadThreshold = false := by
        simpa using hv
      by_cases hc : cfg.silenceTimeout ≤ s.silenceDuration + secondsOf f ∨
          cfg.maxDuration ≤ s.chunkDuration + secondsOf f
      · right
        rw [vadStep_silence_emit cfg s f ha hv' hc]
      · push_neg at hc
        left
        rw [vadStep_silence_cont cfg s f ha hv' hc.1 hc.2]
  · intro g hlen hv
    have hgne : g ≠ [] := by
      intro h
      rw [h] at hlen
      simp at hlen
    constructor
    · obtain ⟨pr', seg, h60⟩ := vadSteps_scenario_49_plus g hlen hv 11 (by omega)
      have h5 : ((List.replicate 11 g).flatten).isEmpty = false := by
        rw [List.isEmpty_eq_false, show (11 : ℕ) = 10 + 1 from rfl, List.replicate_succ,
          List.flatten_cons]
        intro h
        exact hgne (List.append_eq_nil.mp h).1
      unfold stream_with_vad
      rw [show (60 : ℕ) = 49 + 11 from rfl, h60]
      dsimp only
      rw [h5]
      rw [if_pos (show (true && !false) = true from rfl)]
      rfl
    · intro k h49 h60
      obtain ⟨j, rfl⟩ : ∃ j, k = 49 + j := ⟨k - 49, by omega⟩
      obtain ⟨pr', seg, hk⟩ := vadSteps_scenario_49_plus g hlen hv j (by omega)
      rw [hk]
      exact ⟨rfl, rfl⟩

theorem C3_witness :
    ((List.replicate 1600 (16384 : Sample)).length = 1600 ∧
      detect_voice_activity (List.replicate 1600 (16384 : Sample)) (1/50) = true) ∧
    (stream_with_vad ⟨5, 8000, 3/10, 1/50⟩
        (List.replicate 60 (List.replicate 1600 (16384 : Sample)))).length = 2 :=
  ⟨⟨by rw [List.length_replicate],
      detect_voice_activity_replicate 1600 (by norm_num) 16384 (1/50) (by norm_num)
        (by push_cast; norm_num)⟩,
    ((C3_maxduration_split ⟨5, 8000, 3/10, 1/50⟩ (initState ⟨5, 8000, 3/10, 1/50⟩) []).2.2
      (List.replicate 1600 (16384 : Sample)) (by rw [List.length_replicate])
      (detect_voice_activity_replicate 1600 (by norm_num) 16384 (1/50) (by norm_num)
        (by push_cast; norm_num))).1⟩

/-! ## Segment closure invariant (claim C5)

`chunk_duration` tracks exactly the byte length of `current_chunk`
(in seconds); while `speech_active` the duration stays strictly below
`max_duration` between emissions; idle states carry an empty buffer. -/

def SegInv (cfg : VadConfig) (s : VadState) : Prop :=
  s.chunkDuration = secondsOf s.current ∧
  (s.speechActive = true → s.chunkDuration < cfg.maxDuration) ∧
  (s.speechActive = false → s.current = []) ∧
  s.preRoll.maxSamples = cfg.preRollMaxSamples

theorem vadStep_SegInv (cfg : VadConfig) (s : VadState) (f : List Sample)
    (hcap : 0 < cfg.preRollMaxSamples) (hmax : 0 < cfg.maxDuration)
    (hf1 : secondsOf f ≤ (cfg.preRollMaxSamples : ℚ) / 16000)
    (hf2 : secondsOf f ≤ cfg.maxDuration)
    (hinv : SegInv cfg s) :
    SegInv cfg (vadStep cfg s f).1 ∧
      ∀ seg ∈ (vadStep cfg s f).2,
        secondsOf seg ≤ cfg.maxDuration + (cfg.preRollMaxSamples : ℚ) / 16000 := by
  obtain ⟨hdur, hact, hidle, hms⟩ := hinv
  have hsf : 0 ≤ secondsOf f := secondsOf_nonneg f
  have hcapq : (0 : ℚ) ≤ (cfg.preRollMaxSamples : ℚ) / 16000 := by positivity
  by_cases ha : s.speechActive = true
  · by_cases hv : detect_voice_activity f cfg.vadThreshold = true
    · by_cases hd : cfg.maxDuration ≤ s.chunkDuration + secondsOf f
      · rw [vadStep_active_voice_emit cfg s f ha hv hd]
        refine ⟨⟨secondsOf_nil.symm, fun _ => hmax, fun h => absurd h (by simp),
          (CircularBuffer.add_maxSamples s.preRoll f).trans hms⟩, ?_⟩
        intro seg hseg
        simp only [List.mem_singleton] at hseg
        subst hseg
        rw [secondsOf_append, ← hdur]
        have := hact ha
        linarith
      · rw [vadStep_active_voice_cont cfg s f ha hv (not_le.mp hd)]
        refine ⟨⟨by rw [secondsOf_append, hdur], fun _ => not_le.mp hd,
          fun h => absurd h (by simp), (CircularBuffer.add_maxSamples s.preRoll f).trans hms⟩,
          by simp⟩
    · have hv' : detect_voice_activity f cfg.vadThreshold = false := by simpa using hv
      by_cases hc : cfg.silenceTimeout ≤ s.silenceDuration + secondsOf f ∨
          cfg.maxDuration ≤ s.chunkDuration + secondsOf f
      · rw [vadStep_silence_emit cfg s f ha hv' hc]
        refine ⟨⟨secondsOf_nil.symm, fun h => absurd h (by simp), fun _ => rfl,
          (CircularBuffer.add_maxSamples s.preRoll f).trans hms⟩, ?_⟩
        intro seg hseg
        simp only [List.mem_singleton] at hseg
        subst hseg
        rw [secondsOf_append, ← hdur]
        have := hact ha
        linarith
      · push_neg at hc
        rw [vadStep_silence_cont cfg s f ha hv' hc.1 hc.2]
        refine ⟨⟨by rw [secondsOf_append, hdur], fun _ => hc.2,
          fun h => absurd h (by simp), (CircularBuffer.add_maxSamples s.preRoll f).trans hms⟩,
          by simp⟩
  · have ha' : s.speechActive = false := by simpa using ha
    by_cases hv : detect_voice_activity f cfg.vadThreshold = true
    · have hsnap : secondsOf (s.preRoll.add f).get_all ≤ (cfg.preRollMaxSamples : ℚ) / 16000 := by
        unfold secondsOf CircularBuffer.get_all
        have hlen : (s.preRoll.add f).buffer.length ≤ cfg.preRollMaxSamples := by
          rw [← hms]
          exact CircularBuffer.add_buffer_length_le s.preRoll f (hms ▸ hcap)
        have hlen' : ((s.preRoll.add f).buffer.length : ℚ) ≤ (cfg.preRollMaxSamples : ℚ) := by
          exact_mod_cast hlen
        exact (div_le_div_iff_of_pos_right (by norm_num)).mpr hlen'
      by_cases hd : cfg.maxDuration ≤ secondsOf (s.preRoll.add f).get_all + secondsOf f
      · rw [vadStep_seed_emit cfg s f ha' hv hd]
        refine ⟨⟨secondsOf_nil.symm, fun _ => hmax, fun h => absurd h (by simp),
          (CircularBuffer.add_maxSamples s.preRoll f).trans hms⟩, ?_⟩
        intro seg hseg
        simp only [List.mem_singleton] at hseg
        subst hseg
        rw [secondsOf_append]
        linarith
      · rw [vadStep_seed_cont cfg s f ha' hv (not_le.mp hd)]
        refine ⟨⟨(secondsOf_append _ _).symm, fun _ => not_le.mp hd,
          fun h => absurd h (by simp), (CircularBuffer.add_maxSamples s.preRoll f).trans hms⟩,
          by simp⟩
    · have hv' : detect_voice_activity f cfg.vadThreshold = false := by simpa using hv
      rw [vadStep_idle cfg s f ha' hv']
      exact ⟨⟨hdur, fun h => absurd h (ha' ▸ Bool.false_ne_true), fun _ => hidle ha',
        (CircularBuffer.add_maxSamples s.preRoll f).trans hms⟩, by simp⟩

theorem vadSteps_SegInv (cfg : VadConfig) (hcap : 0 < cfg.preRollMaxSamples)
    (hmax : 0 < cfg.maxDuration) :
    ∀ (frames : List (List Sample)) (s : VadState),
      (∀ f ∈ frames, secondsOf f ≤ (cfg.preRollMaxSamples : ℚ) / 16000 ∧
        secondsOf f ≤ cfg.maxDuration) →
      SegInv cfg s →
      SegInv cfg (vadSteps cfg s frames).1 ∧
        ∀ seg ∈ (vadSteps cfg s frames).2,
          secondsOf seg ≤ cfg.maxDuration + (cfg.preRollMaxSamples : ℚ) / 16000 := by
  intro frames
  induction frames with
  | nil =>
    intro s _ hs
    exact ⟨hs, by simp [vadSteps_nil]⟩
  | cons f fs ih =>
    intro s hframes hs
    have hf := hframes f (List.mem_cons_self f fs)
    have hstep := vadStep_SegInv cfg s f hcap hmax hf.1 hf.2 hs
    have hrest := ih (vadStep cfg s f).1
      (fun g hg => hframes g (List.mem_cons_of_mem f hg)) hstep.1
    rw [vadSteps_cons]
    refine ⟨hrest.1, ?_⟩
    intro seg hseg
    rw [List.mem_append] at hseg
    rcases hseg with h | h
    · exact hstep.2 seg h
    · exact hrest.2 seg h

/-- C5: every segment emitted by the VAD streaming loop (final flush
included) has duration — equivalently byte length, at 32000 bytes per
second — at most maxSegmentSeconds plus one pre-roll capacity's worth,
provided each frame is no longer than the pre-roll capacity and than
maxSegmentSeconds (the loop reads 0.1 s frames against a 0.5 s default
pre-roll); and a step taken from an Active state never reads the pre-roll
contents: replacing the pre-roll changes nothing but the carried pre-roll,
so a segment continued after a max-duration cutoff gets no pre-roll
lead-in. -/
theorem C5_segment_bound (cfg : VadConfig) (frames : List (List Sample)) (s : VadState)
    (f : List Sample) :
    (0 < cfg.preRollMaxSamples → 0 < cfg.maxDuration →
      (∀ g ∈ frames, secondsOf g ≤ (cfg.preRollMaxSamples : ℚ) / 16000 ∧
        secondsOf g ≤ cfg.maxDuration) →
      ∀ seg ∈ stream_with_vad cfg frames,
        secondsOf seg ≤ cfg.maxDuration + (cfg.preRollMaxSamples : ℚ) / 16000) ∧
    (∀ pr : CircularBuffer, s.speechActive = true →
      vadStep cfg { s with preRoll := pr } f =
        ({ (vadStep cfg s f).1 with preRoll := pr.add f }, (vadStep cfg s f).2)) := by
  constructor
  · intro hcap hmax hframes seg hseg
    have hinit : SegInv cfg (initState cfg) :=
      ⟨secondsOf_nil.symm, fun h => absurd h Bool.false_ne_true, fun _ => rfl, rfl⟩
    have hrun := vadSteps_SegInv cfg hcap hmax frames (initState cfg) hframes hinit
    have hcapq : (0 : ℚ) ≤ (cfg.preRollMaxSamples : ℚ) / 16000 := by positivity
    unfold stream_with_vad at hseg
    by_cases hcond : ((vadSteps cfg (initState cfg) frames).1.speechActive
        && !(vadSteps cfg (initState cfg) frames).1.current.isEmpty) = true
    · rw [if_pos hcond] at hseg
      rw [List.mem_append] at hseg
      rcases hseg with h | h
      · exact hrun.2 seg h
      · simp only [List.mem_singleton] at h
        subst h
        have hactive : (vadSteps cfg (initState cfg) frames).1.speechActive = true :=
          (Bool.and_eq_true _ _ |>.mp hcond).1
        have hlt := hrun.1.2.1 hactive
        rw [← hrun.1.1]
        linarith
    · rw [if_neg hcond] at hseg
      exact hrun.2 seg hseg
  · intro pr ha
    have ha' : ({ s with preRoll := pr } : VadState).speechActive = true := ha
    by_cases hv : detect_voice_activity f cfg.vadThreshold = true
    · by_cases hd : cfg.maxDuration ≤ s.chunkDuration + secondsOf f
      · rw [vadStep_active_voice_emit cfg { s with preRoll := pr } f ha' hv hd,
          vadStep_active_voice_emit cfg s f ha hv hd]
      · rw [vadStep_active_voice_cont cfg { s with preRoll := pr } f ha' hv (not_le.mp hd),
          vadStep_active_voice_cont cfg s f ha hv (not_le.mp hd)]
    · have hv' : detect_voice_activity f cfg.vadThreshold = false := by simpa using hv
      by_cases hc : cfg.silenceTimeout ≤ s.silenceDuration + secondsOf f ∨
          cfg.maxDuration ≤ s.chunkDuration + secondsOf f
      · rw [vadStep_silence_emit cfg { s with preRoll := pr } f ha' hv' hc,
          vadStep_silence_emit cfg s f ha hv' hc]
      · push_neg at hc
        rw [vadStep_silence_cont cfg { s with preRoll := pr } f ha' hv' hc.1 hc.2,
          vadStep_silence_cont cfg s f ha hv' hc.1 hc.2]

unseal Rat.mul Rat.add Rat.inv Rat.sub in
theorem C5_witness :
    (0 < (⟨1, 1, 1, 1/50⟩ : VadConfig).preRollMaxSamples ∧
      0 < (⟨1, 1, 1, 1/50⟩ : VadConfig).maxDuration ∧
      (∀ g ∈ ([[16384]] : List (List Sample)),
        secondsOf g ≤ (((⟨1, 1, 1, 1/50⟩ : VadConfig).preRollMaxSamples : ℚ)) / 16000 ∧
        secondsOf g ≤ (⟨1, 1, 1, 1/50⟩ : VadConfig).maxDuration)) ∧
    (∀ seg ∈ stream_with_vad ⟨1, 1, 1, 1/50⟩ [[16384]],
      secondsOf seg ≤ (⟨1, 1, 1, 1/50⟩ : VadConfig).maxDuration +
        (((⟨1, 1, 1, 1/50⟩ : VadConfig).preRollMaxSamples : ℚ)) / 16000) :=
  ⟨⟨by decide, by norm_num, by decide⟩,
    (C5_segment_bound ⟨1, 1, 1, 1/50⟩ [[16384]] (initState ⟨1, 1, 1, 1/50⟩) []).1
      (by decide) (by norm_num) (by decide)⟩

/-! ## Session layer (src/python/routes/audio_route.py)

`AudioSession` keeps the fields the claims concern (`is_recording`,
`stop_event`, `transcriptions`); the thread handle and the audio queue are
execution machinery with no bearing on registry state.  The
`SessionManager.sessions` dict is modelled as an insertion-ordered
association list; `create_session` inserts, `remove_session` is `del`.
Transcript text is a character list so that Python's `" ".join(...)` and
`.strip()` are explicit functions. -/

structure TranscriptEntry where
  text : List Char
  timestamp : Nat
  is_final : Bool
deriving DecidableEq

def isPySpace (c : Char) : Bool :=
  c = ' ' || c = '\t' || c = '\n' || c = '\r' || c = '\x0b' || c = '\x0c'

/-- Python `str.strip()`: drop leading and trailing whitespace. -/
def pyStrip (l : List Char) : List Char :=
  ((l.dropWhile isPySpace).reverse.dropWhile isPySpace).reverse

/-- Python `" ".join(parts)`. -/
def joinSpace : List (List Char) → List Char
  | [] => []
  | [x] => x
  | x :: xs => x ++ ' ' :: joinSpace xs

/-- `transcribe_audio` (lines 99-126): wrap the PCM bytes in a WAV
container and call the engine; the engine call (or the encoding) may
raise, modelled by `Except`; on success the segment texts are joined with
spaces and stripped; an empty result becomes `None`, and any exception is
caught, logged and becomes `None`. -/
def transcribe_audio (engine : List Sample → Except (List Char) (List (List Char)))
    (audio : List Sample) : Option (List Char) :=
  match engine audio with
  | .error _ => none
  | .ok parts =>
    let result := pyStrip (joinSpace parts)
    if result = [] then none else some result

/-- Per-chunk handling of `record_audio_thread` (lines 168-191): a chunk
with speech is transcribed; a non-`None` result is appended to the
session's transcription list; otherwise the list is unchanged. -/
def processChunk (engine : List Sample → Except (List Char) (List (List Char)))
    (has_speech : List Sample → Bool) (now : Nat)
    (transcriptions : List TranscriptEntry) (chunk : List Sample) : List TranscriptEntry :=
  if has_speech chunk then
    match transcribe_audio engine chunk with
    | some text => transcriptions ++ [⟨text, now, true⟩]
    | none => transcriptions
  else transcriptions

/-- The recording loop over a finite chunk sequence (the stop event ends
the stream); the timestamp counter stands for `datetime.now()`. -/
def record_audio_loop (engine : List Sample → Except (List Char) (List (List Char)))
    (has_speech : List Sample → Bool) :
    Nat → List TranscriptEntry → List (List Sample) → List TranscriptEntry
  | _, transcriptions, [] => transcriptions
  | now, transcriptions, c :: cs =>
    record_audio_loop engine has_speech (now + 1)
      (processChunk engine has_speech now transcriptions c) cs

/-- C8: a transcription entry `{text, timestamp, isFinal = true}` is
appended for an emitted (speech) chunk iff the engine returns non-empty
stripped text; on empty text or an engine exception the transcript is
unchanged; and the loop always processes every remaining chunk, the
transcript growing append-only by exactly the successful segments. -/
theorem C8_transcription_append
    (engine : List Sample → Except (List Char) (List (List Char)))
    (hs : List Sample → Bool) (now : Nat) (tr : List TranscriptEntry) (c : List Sample) :
    (hs c = true → ∀ parts, engine c = .ok parts → pyStrip (joinSpace parts) ≠ [] →
      processChunk engine hs now tr c = tr ++ [⟨pyStrip (joinSpace parts), now, true⟩]) ∧
    (hs c = true → ∀ parts, engine c = .ok parts → pyStrip (joinSpace parts) = [] →
      processChunk engine hs now tr c = tr) ∧
    (hs c = true → ∀ e, engine c = .error e → processChunk engine hs now tr c = tr) ∧
    (∀ (chunks : List (List Sample)) (clock : Nat) (tr0 : List TranscriptEntry),
      (record_audio_loop engine hs clock tr0 chunks).length =
        tr0.length + chunks.countP (fun ch => hs ch && (transcribe_audio engine ch).isSome)) ∧
    (∀ (chunks : List (List Sample)) (clock : Nat) (tr0 : List TranscriptEntry),
      ∃ rest, record_audio_loop engine hs clock tr0 chunks = tr0 ++ rest) := by
  refine ⟨?_, ?_, ?_, ?_, ?_⟩
  · intro h parts hok hne
    simp [processChunk, transcribe_audio, h, hok, hne]
  · intro h parts hok hemp
    simp [processChunk, transcribe_audio, h, hok, hemp]
  · intro h e herr
    simp [processChunk, transcribe_audio, h, herr]
  · intro chunks
    induction chunks with
    | nil =>
      intro clock tr0
      simp [record_audio_loop]
    | cons c0 cs ih =>
      intro clock tr0
      have hlen : (processChunk engine hs clock tr0 c0).length =
          tr0.length + (if hs c0 && (transcribe_audio engine c0).isSome then 1 else 0) := by
        unfold processChunk
        by_cases h : hs c0 = true
        · cases hM : transcribe_audio engine c0 with
          | some t => simp [h, hM]
          | none => simp [h, hM]
        · have h' : hs c0 = false := by simpa using h
          simp [h']
      rw [record_audio_loop, ih, hlen, List.countP_cons]
      omega
  · intro chunks
    induction chunks with
    | nil =>
      intro clock tr0
      exact ⟨[], by simp [record_audio_loop]⟩
    | cons c0 cs ih =>
      intro clock tr0
      obtain ⟨r1, h1⟩ : ∃ r1, processChunk engine hs clock tr0 c0 = tr0 ++ r1 := by
        unfold processChunk
        by_cases h : hs c0 = true
        · cases hM : transcribe_audio engine c0 with
          | some t => exact ⟨[⟨t, clock, true⟩], by simp [h, hM]⟩
          | none => exact ⟨[], by simp [h, hM]⟩
        · have h' : hs c0 = false := by simpa using h
          exact ⟨[], by simp [h']⟩
      obtain ⟨rest, hr⟩ := ih (clock + 1) (processChunk engine hs clock tr0 c0)
      refine ⟨r1 ++ rest, ?_⟩
      rw [record_audio_loop, hr, h1, List.append_assoc]

theorem C8_witness :
    (((fun _ => true) : List Sample → Bool) [] = true ∧
      ((fun _ => Except.ok [[Char.ofNat 104]]) :
          List Sample → Except (List Char) (List (List Char))) [] = .ok [[Char.ofNat 104]] ∧
      pyStrip (joinSpace [[Char.ofNat 104]]) ≠ []) ∧
    processChunk (fun _ => Except.ok [[Char.ofNat 104]]) (fun _ => true) 0 [] []
      = [] ++ [⟨pyStrip (joinSpace [[Char.ofNat 104]]), 0, true⟩] :=
  ⟨⟨rfl, rfl, by decide⟩,
    (C8_transcription_append (fun _ => Except.ok [[Char.ofNat 104]]) (fun _ => true) 0 [] []).1
      rfl [[Char.ofNat 104]] rfl (by decide)⟩

/-! ## Registry operations (start / stop, lines 232-302) -/

structure AudioSession where
  is_recording : Bool
  stop_event : Bool
  transcriptions : List TranscriptEntry
deriving DecidableEq

abbrev Registry := List (String × AudioSession)

/-- The `for sid, sess in session_manager.sessions.items(): if sess.is_recording`
search of `stop_recording`, returning the first recording session. -/
def findActive : Registry → Option (String × AudioSession)
  | [] => none
  | (sid, sess) :: rest => if sess.is_recording then some (sid, sess) else findActive rest

structure StopResponse where
  status : String
  session_id : String
  transcriptions : List TranscriptEntry
deriving DecidableEq

def remove_session (reg : Registry) (sid : String) : Registry :=
  reg.filter (fun p => p.1 != sid)

/-- `stop_recording` (lines 265-302): find the first recording session; if
none, raise HTTP 404 with nothing mutated; otherwise signal it, copy its
transcriptions, remove it from the registry, and answer with status
"stopped", its id and the copy. -/
def stop_recording (reg : Registry) : Except Nat StopResponse × Registry :=
  match findActive reg with
  | none => (.error 404, reg)
  | some (sid, sess) => (.ok ⟨"stopped", sid, sess.transcriptions⟩, remove_session reg sid)

theorem findActive_eq_none (reg : Registry)
    (h : ∀ p ∈ reg, p.2.is_recording = false) : findActive reg = none := by
  induction reg with
  | nil => rfl
  | cons p rest ih =>
    obtain ⟨sid, sess⟩ := p
    unfold findActive
    rw [if_neg]
    · exact ih fun q hq => h q (List.mem_cons_of_mem _ hq)
    · rw [h (sid, sess) (List.mem_cons_self _ _)]
      exact Bool.false_ne_true

theorem findActive_some (reg : Registry) (sid : String) (sess : AudioSession)
    (h : findActive reg = some (sid, sess)) :
    sess.is_recording = true ∧ (sid, sess) ∈ reg := by
  induction reg with
  | nil => exact absurd h (by simp [findActive])
  | cons p rest ih =>
    obtain ⟨sid', sess'⟩ := p
    unfold findActive at h
    by_cases hrec : sess'.is_recording = true
    · rw [if_pos hrec] at h
      injection h with h'
      injection h' with ha hb
      subst ha
      subst hb
      exact ⟨hrec, List.mem_cons_self _ _⟩
    · rw [if_neg hrec] at h
      obtain ⟨h1, h2⟩ := ih h
      exact ⟨h1, List.mem_cons_of_mem _ h2⟩

/-- C9: if no session in the registry is recording, `stop_recording` fails
with HTTP 404 and the registry is unchanged; otherwise it answers
`("stopped", sid, transcriptions)` for the first recording session and
removes exactly that session from the registry. -/
theorem C9_stop_recording (reg : Registry) :
    ((∀ p ∈ reg, p.2.is_recording = false) → stop_recording reg = (.error 404, reg)) ∧
    (findActive reg = none → stop_recording reg = (.error 404, reg)) ∧
    (∀ sid sess, findActive reg = some (sid, sess) →
      sess.is_recording = true ∧ (sid, sess) ∈ reg ∧
      stop_recording reg = (.ok ⟨"stopped", sid, sess.transcriptions⟩, remove_session reg sid) ∧
      ∀ q ∈ remove_session reg sid, q.1 ≠ sid) := by
  refine ⟨?_, ?_, ?_⟩
  · intro h
    unfold stop_recording
    rw [findActive_eq_none reg h]
  · intro h
    unfold stop_recording
    rw [h]
  · intro sid sess h
    obtain ⟨hrec, hmem⟩ := findActive_some reg sid sess h
    refine ⟨hrec, hmem, ?_, ?_⟩
    · unfold stop_recording
      rw [h]
    · intro q hq
      rw [remove_session, List.mem_filter] at hq
      exact bne_iff_ne.mp hq.2

theorem C9_witness :
    findActive [("a", ⟨false, false, []⟩), ("b", ⟨true, false, []⟩)]
      = some ("b", ⟨true, false, []⟩) ∧
    stop_recording [("a", ⟨false, false, []⟩), ("b", ⟨true, false, []⟩)]
      = (.ok ⟨"stopped", "b", []⟩,
        remove_session [("a", ⟨false, false, []⟩), ("b", ⟨true, false, []⟩)] "b") :=
  ⟨rfl,
    (C9_stop_recording [("a", ⟨false, false, []⟩), ("b", ⟨true, false, []⟩)]).2.2
      "b" ⟨true, false, []⟩ rfl |>.2.2.1⟩

/-- The `for sid, sess in list(...): if sess.is_recording: stop/join/remove`
prologue of `start_recording` (lines 236-242): every recording session is
removed; non-recording entries are untouched. -/
def stop_existing (reg : Registry) : Registry :=
  reg.filter (fun p => !p.2.is_recording)

/-- Python dict insertion `self.sessions[sid] = session`: replace an
existing key, else append. -/
def registry_insert (reg : Registry) (sid : String) (sess : AudioSession) : Registry :=
  if reg.any (fun p => p.1 == sid) then
    reg.map (fun p => if p.1 == sid then (sid, sess) else p)
  else reg ++ [(sid, sess)]

/-- `start_recording` (lines 232-262): stop and remove every recording
session, then create and register one new session with
`is_recording = True` and an empty transcript, and return its id. -/
def start_recording (reg : Registry) (newId : String) : Registry × String :=
  (registry_insert (stop_existing reg) newId ⟨true, false, []⟩, newId)

/-- C1: for a fresh session id, after `start_recording` the registry is
the non-recording survivors followed by the single new recording session:
exactly one session has `recording = true`, it is the new one, and every
previously recording session has been removed. -/
theorem C1_start_exactly_one_recording (reg : Registry) (newId : String)
    (hfresh : ∀ p ∈ reg, p.1 ≠ newId) :
    (start_recording reg newId).1
        = stop_existing reg ++ [(newId, ⟨true, false, []⟩)] ∧
    ((start_recording reg newId).1.countP (fun p => p.2.is_recording)) = 1 ∧
    (∀ p ∈ reg, p.2.is_recording = true → p ∉ (start_recording reg newId).1) ∧
    (newId, (⟨true, false, []⟩ : AudioSession)) ∈ (start_recording reg newId).1 := by
  have hnotin : ¬((stop_existing reg).any (fun p => p.1 == newId) = true) := by
    intro h
    rw [List.any_eq_true] at h
    obtain ⟨p, hp, hpid⟩ := h
    exact hfresh p (List.mem_of_mem_filter hp) (by simpa using hpid)
  have hform : (start_recording reg newId).1
      = stop_existing reg ++ [(newId, ⟨true, false, []⟩)] := by
    unfold start_recording registry_insert
    rw [if_neg hnotin]
  refine ⟨hform, ?_, ?_, ?_⟩
  · rw [hform, List.countP_append]
    have h0 : (stop_existing reg).countP (fun p => p.2.is_recording) = 0 := by
      rw [List.countP_eq_zero]
      intro p hp
      rw [stop_existing, List.mem_filter] at hp
      simpa using hp.2
    rw [h0]
    rfl
  · intro p hp hrec hmem
    rw [hform, List.mem_append] at hmem
    rcases hmem with h | h
    · rw [stop_existing, List.mem_filter] at h
      rw [hrec] at h
      simpa using h.2
    · simp only [List.mem_singleton] at h
      exact hfresh p hp (by rw [h])
  · rw [hform, List.mem_append]
    right
    exact List.mem_singleton.mpr rfl

theorem C1_witness :
    (∀ p ∈ ([("a", ⟨true, false, []⟩)] : Registry), p.1 ≠ "b") ∧
    ((start_recording [("a", ⟨true, false, []⟩)] "b").1
        = stop_existing [("a", ⟨true, false, []⟩)] ++ [("b", ⟨true, false, []⟩)] ∧
      ((start_recording [("a", ⟨true, false, []⟩)] "b").1.countP
        (fun p => p.2.is_recording)) = 1) :=
  ⟨by decide,
    ⟨(C1_start_exactly_one_recording [("a", ⟨true, false, []⟩)] "b" (by decide)).1,
      (C1_start_exactly_one_recording [("a", ⟨true, false, []⟩)] "b" (by decide)).2.1⟩⟩

end App
